import Mathlib

/- Shallow embedding of src/data_loader.py (class DataLoader).

   Tables are lists of rows; pandas column assignments become maps over
   rows, pandas shifts become an index-based shift on a column, and the
   groupby/shift/merge in add_shifted_daily_mean is embedded literally
   (sorted distinct keys, positional shift of the per-key means, inner
   merge as bind over matching key rows).  Numeric data is modelled with
   rationals; the scaler holds per-column min/max as fitted by sklearn's
   MinMaxScaler with feature_range (-1, 1).  Fallible steps (scipy
   winsorize on an empty column, sklearn fit on zero samples, transform
   before fit) return Except values. -/

/-- Calendar components that pandas extracts from the `start_time` column
    (`dt.date`, `dt.hour`, `dt.minute`, `dt.day_of_week`, `dt.day_of_year`).
    The date is modelled as an ordinal day number. -/
structure Timestamp where
  date : ℕ
  hour : ℕ
  minute : ℕ
  dayOfWeek : ℕ
  dayOfYear : ℕ
  deriving DecidableEq

/-- The eight numeric feature columns scaled alongside `y`
    (the `columns_to_scale` list in `DataLoader.scale_data`). -/
inductive FeatureCol
  | hydro | micro | thermal | wind | river | total | sys_reg | flow
  deriving DecidableEq

instance : Fintype FeatureCol :=
  ⟨⟨[FeatureCol.hydro, FeatureCol.micro, FeatureCol.thermal, FeatureCol.wind,
     FeatureCol.river, FeatureCol.total, FeatureCol.sys_reg, FeatureCol.flow], by decide⟩,
   fun c => by cases c <;> decide⟩

/-- One input row: `start_time`, the target `y`, and the feature columns. -/
structure Row where
  start_time : Timestamp
  y : ℚ
  feat : FeatureCol → ℚ
  deriving DecidableEq

/-- Failure modes of the pipeline: scipy's winsorize raises an IndexError on a
    zero-row column, sklearn's fit raises a ValueError on zero samples, and
    transform before fit raises a NotFittedError. -/
inductive PipeError
  | emptyInput
  | emptyFit
  | notFitted
  deriving DecidableEq

/-- Fitted state of sklearn's MinMaxScaler: the per-column data min and max
    observed at fit time (for the nine scaled columns). -/
structure ScalerParams where
  yMin : ℚ
  yMax : ℚ
  featMin : FeatureCol → ℚ
  featMax : FeatureCol → ℚ
  deriving DecidableEq

/-- The cross-call state of a DataLoader instance: the scaler object (fitted
    parameters once fit, otherwise none) and the `scaler_is_trained` flag set
    in `DataLoader.__init__` / `DataLoader.scale_data`. -/
structure LoaderState where
  scalerParams : Option ScalerParams
  scaler_is_trained : Bool
  deriving DecidableEq

/-- State of a freshly constructed DataLoader (`DataLoader.__init__`). -/
def freshLoader : LoaderState := { scalerParams := none, scaler_is_trained := false }

/-- Mean of a column, as computed by pandas `.mean()` on a non-empty group. -/
def listMean (xs : List ℚ) : ℚ := xs.sum / (xs.length : ℚ)

/-- Minimum of a non-empty column (sklearn's per-column data_min_). -/
def colMin : List ℚ → ℚ
  | [] => 0
  | a :: tl => tl.foldl min a

/-- Maximum of a non-empty column (sklearn's per-column data_max_). -/
def colMax : List ℚ → ℚ
  | [] => 0
  | a :: tl => tl.foldl max a

/-- Pandas `Series.shift(k)`: entry `i` of the result holds the value at
    index `i - k`, and the first `k` entries are null. -/
def listShift (k : ℕ) (xs : List ℚ) : List (Option ℚ) :=
  (List.range xs.length).map (fun i => if i < k then none else xs[i - k]?)

/-- Ascending sort of the `y` column, standing for the argsort order that
    scipy's `_winsorize1D` cuts at.  (The effect of the positional
    assignments in `_winsorize1D` depends only on the sorted values, not on
    how argsort breaks ties, so the embedding works with the sorted list.) -/
def sortedY (ys : List ℚ) : List ℚ := List.insertionSort (fun a b => a ≤ b) ys

/-- Lower cut index `int(0.005 * n)` used by `winsorize(limits=[0.005, 0.005])`. -/
def winsorCut (n : ℕ) : ℕ := n * 5 / 1000

/-- The 0.5th-percentile bound scipy clips at: the sorted value at the lower
    cut index. -/
def winsorLower (ys : List ℚ) : ℚ := (sortedY ys).getD (winsorCut ys.length) 0

/-- The 99.5th-percentile bound scipy clips at: the sorted value at index
    `n - int(0.005 * n) - 1`. -/
def winsorUpper (ys : List ℚ) : ℚ := (sortedY ys).getD (ys.length - winsorCut ys.length - 1) 0

/-- DataLoader.winsorize_one_percent on the `y` column.  scipy first raises
    the values below the lower bound to the lower bound (the assignment
    `a[idx[:lowidx]] = a[idx[lowidx]]`), then lowers the values above the
    upper bound (`a[idx[upidx:]] = a[idx[upidx - 1]]`); on a zero-row column
    `idx[lowidx]` raises an IndexError. -/
def winsorize_one_percent (ys : List ℚ) : Except PipeError (List ℚ) :=
  if ys.length = 0 then Except.error PipeError.emptyInput
  else
    Except.ok ((ys.map (fun v => if v < winsorLower ys then winsorLower ys else v)).map
      (fun v => if winsorUpper ys < v then winsorUpper ys else v))

/-- Write a new `y` column onto the rows (`data['y'] = np.array(winsorized)`). -/
def setYCol (t : List Row) (ys : List ℚ) : List Row :=
  List.zipWith (fun r v => { r with y := v }) t ys

/-- MinMaxScaler's affine transform of one value of a column with fitted data
    min/max: `X * scale_ + min_` with `scale_ = 2 / handle_zeros(max - min)`
    and `min_ = -1 - min * scale_` for feature_range (-1, 1).  A zero data
    range is replaced by 1, and values outside the fitted range are not
    clamped. -/
def mmScale (dmin dmax x : ℚ) : ℚ :=
  x * (2 / (if dmax - dmin = 0 then 1 else dmax - dmin)) +
    (-1 - dmin * (2 / (if dmax - dmin = 0 then 1 else dmax - dmin)))

/-- Transform of one row by the fitted scaler (all nine scaled columns). -/
def transformRow (p : ScalerParams) (r : Row) : Row :=
  { r with
    y := mmScale p.yMin p.yMax r.y,
    feat := fun c => mmScale (p.featMin c) (p.featMax c) (r.feat c) }

/-- MinMaxScaler.fit: record per-column min and max; sklearn rejects a table
    with zero samples. -/
def fitScaler (rows : List Row) : Except PipeError ScalerParams :=
  match rows with
  | [] => Except.error PipeError.emptyFit
  | _ :: _ =>
      Except.ok
        { yMin := colMin (rows.map Row.y)
          yMax := colMax (rows.map Row.y)
          featMin := fun c => colMin (rows.map (fun r => r.feat c))
          featMax := fun c => colMax (rows.map (fun r => r.feat c)) }

/-- The `if not self.scaler_is_trained` branch of `DataLoader.scale_data`:
    fit the scaler and set the flag on the first call, otherwise keep the
    stored state. -/
def trainIfNeeded (s : LoaderState) (rows : List Row) : Except PipeError LoaderState :=
  if s.scaler_is_trained then Except.ok s
  else
    match fitScaler rows with
    | Except.error e => Except.error e
    | Except.ok p => Except.ok { scalerParams := some p, scaler_is_trained := true }

/-- Reading the fitted parameters; sklearn raises NotFittedError when
    transform is called on an unfit scaler. -/
def getParams (s : LoaderState) : Except PipeError ScalerParams :=
  match s.scalerParams with
  | some p => Except.ok p
  | none => Except.error PipeError.notFitted

/-- DataLoader.scale_data: fit once, then transform every row with the stored
    per-column min/max. -/
def scale_data (s : LoaderState) (rows : List Row) :
    Except PipeError (LoaderState × List Row) :=
  match trainIfNeeded s rows with
  | Except.error e => Except.error e
  | Except.ok s' =>
      match getParams s' with
      | Except.error e => Except.error e
      | Except.ok p => Except.ok (s', rows.map (transformRow p))

/-- Row after `DataLoader.apply_preprocessing`: the snapshot column
    `y_original`, the clipped and scaled `y` and features, and the two lag
    columns (`y_yesterday` is created before `y_prev` in the source). -/
structure PRow where
  start_time : Timestamp
  y_original : ℚ
  y : ℚ
  feat : FeatureCol → ℚ
  y_yesterday : Option ℚ
  y_prev : Option ℚ
  deriving DecidableEq

/-- Assemble the preprocessed rows from the scaled rows and the three derived
    columns (`y_original`, `y_yesterday`, `y_prev`). -/
def mkPRows : List Row → List ℚ → List (Option ℚ) → List (Option ℚ) → List PRow
  | r :: rs, a :: yos, b :: yys, c :: yps =>
      { start_time := r.start_time, y_original := a, y := r.y, feat := r.feat,
        y_yesterday := b, y_prev := c } :: mkPRows rs yos yys yps
  | _, _, _, _ => []

/-- DataLoader.apply_preprocessing: snapshot `y` into `y_original`, winsorize
    `y`, scale (stateful), then add `y_yesterday = y.shift(288)`
    (add_shifted_daily_value) and `y_prev = y.shift(1)` (shift_y), both taken
    from the scaled `y` column. -/
def apply_preprocessing (s : LoaderState) (t : List Row) :
    Except PipeError (LoaderState × List PRow) :=
  match winsorize_one_percent (t.map Row.y) with
  | Except.error e => Except.error e
  | Except.ok yW =>
      match scale_data s (setYCol t yW) with
      | Except.error e => Except.error e
      | Except.ok (s', rowsS) =>
          Except.ok (s', mkPRows rowsS (t.map Row.y)
            (listShift 288 (rowsS.map Row.y))
            (listShift 1 (rowsS.map Row.y)))

/-- Row after the four calendar methods of `apply_feature_engineering`:
    `hour_of_day = dt.hour`, `min_of_day = dt.minute + hour_of_day * 60`,
    `day_of_week = dt.day_of_week`, `day_of_year = dt.day_of_year`.  The
    sine/cosine companion columns do not feed any later stage and are
    modelled separately below over the reals. -/
structure GRow where
  start_time : Timestamp
  y_original : ℚ
  y : ℚ
  feat : FeatureCol → ℚ
  y_yesterday : Option ℚ
  y_prev : Option ℚ
  hour_of_day : ℕ
  min_of_day : ℕ
  day_of_week : ℕ
  day_of_year : ℕ
  deriving DecidableEq

/-- The rowwise calendar columns added by add_hour_of_day, add_min_of_day,
    add_day_of_week and add_day_of_year. -/
def addCalendar (r : PRow) : GRow :=
  { start_time := r.start_time, y_original := r.y_original, y := r.y,
    feat := r.feat, y_yesterday := r.y_yesterday, y_prev := r.y_prev,
    hour_of_day := r.start_time.hour,
    min_of_day := r.start_time.minute + r.start_time.hour * 60,
    day_of_week := r.start_time.dayOfWeek,
    day_of_year := r.start_time.dayOfYear }

/-- Fully processed row: everything above plus the `date` key and the merged
    `daily_mean` column. -/
structure FRow where
  start_time : Timestamp
  y_original : ℚ
  y : ℚ
  feat : FeatureCol → ℚ
  y_yesterday : Option ℚ
  y_prev : Option ℚ
  hour_of_day : ℕ
  min_of_day : ℕ
  day_of_week : ℕ
  day_of_year : ℕ
  date : ℕ
  daily_mean : Option ℚ
  deriving DecidableEq

/-- The calendar date key of a row (`pd.to_datetime(start_time).dt.date`). -/
def dateOf (r : GRow) : ℕ := r.start_time.date

/-- A merged output row: the row's columns, its date key, and the joined
    previous-day mean. -/
def mkFRow (r : GRow) (dm : Option ℚ) : FRow :=
  { start_time := r.start_time, y_original := r.y_original, y := r.y,
    feat := r.feat, y_yesterday := r.y_yesterday, y_prev := r.y_prev,
    hour_of_day := r.hour_of_day, min_of_day := r.min_of_day,
    day_of_week := r.day_of_week, day_of_year := r.day_of_year,
    date := dateOf r, daily_mean := dm }

/-- Collapse equal adjacent keys of an ascending-sorted list, leaving the
    strictly ascending list of distinct keys. -/
def dedupAdj : List ℕ → List ℕ
  | [] => []
  | [a] => [a]
  | a :: b :: tl => if a = b then dedupAdj (b :: tl) else a :: dedupAdj (b :: tl)

/-- The distinct date keys in ascending order: pandas `groupby(['date'])`
    sorts the group keys ascending. -/
def sortedDates (g : List GRow) : List ℕ :=
  dedupAdj (List.insertionSort (fun a b => a ≤ b) (g.map dateOf))

/-- Mean of the (scaled) `y` column over the rows of one date group. -/
def groupMean (g : List GRow) (d : ℕ) : ℚ :=
  listMean ((g.filter (fun r => dateOf r = d)).map GRow.y)

/-- The small frame built in add_shifted_daily_mean: one row per distinct
    date in ascending order, holding the per-date mean of `y` shifted down by
    one position (`daily_mean.shift(1)`). -/
def dailyMeanTbl (g : List GRow) : List (ℕ × Option ℚ) :=
  (sortedDates g).zip (listShift 1 ((sortedDates g).map (groupMean g)))

/-- DataLoader.add_shifted_daily_mean: compute the date key of every row,
    build the shifted per-date mean frame, and inner-merge it back on the
    date key.  Pandas' inner merge emits, for each left row in order, the
    matching right rows in order. -/
def add_shifted_daily_mean (g : List GRow) : List FRow :=
  g.flatMap (fun r =>
    ((dailyMeanTbl g).filter (fun e => e.1 = dateOf r)).map (fun e => mkFRow r e.2))

/-- DataLoader.apply_feature_engineering: the four rowwise calendar methods
    followed by add_shifted_daily_mean. -/
def apply_feature_engineering (rows : List PRow) : List FRow :=
  add_shifted_daily_mean (rows.map addCalendar)

/-- One call of the processing pipeline (`get_processed_data` without the
    CSV read): apply_preprocessing then apply_feature_engineering, threading
    the scaler state. -/
def runPipeline (s : LoaderState) (t : List Row) :
    Except PipeError (LoaderState × List FRow) :=
  match apply_preprocessing s t with
  | Except.error e => Except.error e
  | Except.ok (s', p) => Except.ok (s', apply_feature_engineering p)

/-- The winsorized-then-scaled rows of one call, given the winsorized `y`
    column and the scaler parameters in use. -/
def scaledRows (t : List Row) (ws : List ℚ) (p : ScalerParams) : List Row :=
  (setYCol t ws).map (transformRow p)

/-- The functional description of one successful call's output table. -/
def pipeSpec (t : List Row) (ws : List ℚ) (p : ScalerParams) : List FRow :=
  apply_feature_engineering
    (mkPRows (scaledRows t ws p) (t.map Row.y)
      (listShift 288 ((scaledRows t ws p).map Row.y))
      (listShift 1 ((scaledRows t ws p).map Row.y)))

/-- The calendar-feature rows of one successful call, before the final merge. -/
def gRows (t : List Row) (ws : List ℚ) (p : ScalerParams) : List GRow :=
  (mkPRows (scaledRows t ws p) (t.map Row.y)
    (listShift 288 ((scaledRows t ws p).map Row.y))
    (listShift 1 ((scaledRows t ws p).map Row.y))).map addCalendar

/-- The dates of the table that are smaller than `d`, in ascending order. -/
def prevDates (g : List GRow) (d : ℕ) : List ℕ :=
  (sortedDates g).filter (fun e => e < d)

/-- The previous-day mean joined onto a row of date `d`: the mean of `y` over
    the largest table date below `d`, none when no table date is below `d`. -/
def prevMean (g : List GRow) (d : ℕ) : Option ℚ :=
  (prevDates g d).getLast?.map (groupMean g)

/-- Boolean success test for an Except value. -/
def exceptOk : Except PipeError (LoaderState × List FRow) → Bool
  | Except.ok _ => true
  | Except.error _ => false

/-- The output table of one call, defaulting to the empty table on failure. -/
def pipeOut (s : LoaderState) (t : List Row) : List FRow :=
  ((runPipeline s t).toOption.map Prod.snd).getD []

/-- The loader state after one call, defaulting to the input state on failure. -/
def pipeState (s : LoaderState) (t : List Row) : LoaderState :=
  ((runPipeline s t).toOption.map Prod.fst).getD s

/- Column-creation order.  Pandas appends a newly assigned column at the end
   of the frame and keeps the position of a reassigned column, so the column
   order of the processed frame records the creation order of the derived
   columns.  Each function below mirrors one method of the source. -/

/-- Input column schema of the loaded CSV. -/
def inputCols : List String :=
  ["start_time", "hydro", "micro", "thermal", "wind", "river", "total", "sys_reg", "flow", "y"]

/-- winsorize_one_percent reassigns `y` in place: no new column. -/
def winsorize_cols (c : List String) : List String := c

/-- scale_data reassigns the nine scaled columns in place: no new column. -/
def scale_data_cols (c : List String) : List String := c

/-- add_shifted_daily_value appends `y_yesterday`. -/
def add_shifted_daily_value_cols (c : List String) : List String := c ++ ["y_yesterday"]

/-- shift_y appends `y_prev`. -/
def shift_y_cols (c : List String) : List String := c ++ ["y_prev"]

/-- apply_preprocessing: snapshot `y_original`, winsorize, scale, then
    add_shifted_daily_value, then shift_y — in the source's order. -/
def apply_preprocessing_cols (c : List String) : List String :=
  shift_y_cols (add_shifted_daily_value_cols (scale_data_cols (winsorize_cols (c ++ ["y_original"]))))

/-- add_hour_of_day appends `hour_of_day`. -/
def add_hour_of_day_cols (c : List String) : List String := c ++ ["hour_of_day"]

/-- add_min_of_day appends `min_of_day`, then `cos_minute`, then `sin_minute`. -/
def add_min_of_day_cols (c : List String) : List String :=
  c ++ ["min_of_day", "cos_minute", "sin_minute"]

/-- add_day_of_week appends `day_of_week`, then `cos_weekday`, then `sin_weekday`. -/
def add_day_of_week_cols (c : List String) : List String :=
  c ++ ["day_of_week", "cos_weekday", "sin_weekday"]

/-- add_day_of_year appends `day_of_year`, then `cos_yearday`, then `sin_yearday`. -/
def add_day_of_year_cols (c : List String) : List String :=
  c ++ ["day_of_year", "cos_yearday", "sin_yearday"]

/-- add_shifted_daily_mean appends `date`, and the merge appends the right
    frame's non-key column `daily_mean` after all left columns. -/
def add_shifted_daily_mean_cols (c : List String) : List String :=
  (c ++ ["date"]) ++ ["daily_mean"]

/-- apply_feature_engineering's column schema, in the source's method order. -/
def apply_feature_engineering_cols (c : List String) : List String :=
  add_shifted_daily_mean_cols (add_day_of_year_cols (add_day_of_week_cols
    (add_min_of_day_cols (add_hour_of_day_cols c))))

/-- Column schema of the fully processed frame, recording creation order. -/
def processedCols : List String :=
  apply_feature_engineering_cols (apply_preprocessing_cols inputCols)

/- Cyclical sine/cosine columns.  numpy divides the integer column by its
   observed maximum; when the maximum is zero every entry is 0/0 = NaN, and
   sine/cosine of NaN is NaN — modelled as `none`.  `np.round`'s half-even
   tie rule differs from `round`'s half-up only on exact ties, which is
   immaterial to the half-ulp bound proved below. -/

/-- Rounding to `k` decimal places. -/
noncomputable def roundTo (k : ℕ) (x : ℝ) : ℝ := ((round (x * 10 ^ k) : ℤ) : ℝ) / 10 ^ k

/-- Maximum of a column of naturals (`Series.max()` of a non-negative column). -/
def natMaxList (l : List ℕ) : ℕ := l.foldr max 0

/-- sin_minute entry: `round(np.sin(2π · min_of_day / max(min_of_day)), 6)`. -/
noncomputable def sin_minute_val (m maxm : ℕ) : Option ℝ :=
  if maxm = 0 then none else some (roundTo 6 (Real.sin (2 * Real.pi * m / maxm)))

/-- cos_minute entry: full-precision cosine. -/
noncomputable def cos_minute_val (m maxm : ℕ) : Option ℝ :=
  if maxm = 0 then none else some (Real.cos (2 * Real.pi * m / maxm))

/-- sin_weekday entry: `round(np.sin(2π · day_of_week / max(day_of_week)), 2)`. -/
noncomputable def sin_weekday_val (d maxd : ℕ) : Option ℝ :=
  if maxd = 0 then none else some (roundTo 2 (Real.sin (2 * Real.pi * d / maxd)))

/-- cos_weekday entry: full-precision cosine. -/
noncomputable def cos_weekday_val (d maxd : ℕ) : Option ℝ :=
  if maxd = 0 then none else some (Real.cos (2 * Real.pi * d / maxd))

/-- sin_yearday entry: full-precision sine. -/
noncomputable def sin_yearday_val (d maxd : ℕ) : Option ℝ :=
  if maxd = 0 then none else some (Real.sin (2 * Real.pi * d / maxd))

/-- cos_yearday entry: full-precision cosine. -/
noncomputable def cos_yearday_val (d maxd : ℕ) : Option ℝ :=
  if maxd = 0 then none else some (Real.cos (2 * Real.pi * d / maxd))

/-- The sin_weekday column of add_day_of_week: the whole column is divided by
    its observed maximum. -/
noncomputable def sin_weekday_col (dows : List ℕ) : List (Option ℝ) :=
  dows.map (fun d => sin_weekday_val d (natMaxList dows))

/-- The cos_weekday column of add_day_of_week. -/
noncomputable def cos_weekday_col (dows : List ℕ) : List (Option ℝ) :=
  dows.map (fun d => cos_weekday_val d (natMaxList dows))

/- Concrete inputs for the witnesses. -/

/-- A timestamp on ordinal date `d` at 00:00 on a Monday, day-of-year 1. -/
def stD (d : ℕ) : Timestamp :=
  { date := d, hour := 0, minute := 0, dayOfWeek := 0, dayOfYear := 1 }

/-- A row on date `d` with target `v` and all feature columns zero. -/
def mkRow (d : ℕ) (v : ℚ) : Row := { start_time := stD d, y := v, feat := fun _ => 0 }

/-- First witness table for the fit-once claim: two rows with `y` 0 and 2. -/
def tblA : List Row := [mkRow 0 0, mkRow 0 2]

/-- Second witness table for the fit-once claim: one row with `y = 3`,
    outside the fitted range [0, 2]. -/
def tblB : List Row := [mkRow 0 3]

/-- The parameters fit on `tblA` (min 0 and max 2 for `y`, degenerate 0/0
    for the feature columns). -/
def paramsA : ScalerParams :=
  { yMin := 0, yMax := 2, featMin := fun _ => 0, featMax := fun _ => 0 }

/-- Witness table spanning exactly two dates: two rows on date 0 with `y` 0
    and 2, one row on date 1. -/
def tblTwoDates : List Row := [mkRow 0 0, mkRow 0 2, mkRow 1 1]

/-- Witness table with a gap in its dates: rows on dates 0, 0 and 2. -/
def tblGap : List Row := [mkRow 0 0, mkRow 0 2, mkRow 2 1]

/-- Witness table for the snapshot claim. -/
def tblSnap : List Row := [mkRow 0 5, mkRow 0 7]

/-- Witness table long enough to exercise the 288-step lag. -/
def tblLong : List Row := List.replicate 290 (mkRow 0 0)

/-- Witness `y` column for the winsorization bound. -/
def ysW : List ℚ := [0, 10, 5]

/- Generic list lemmas used by the pipeline proofs. -/

theorem listShift_length (k : ℕ) (xs : List ℚ) : (listShift k xs).length = xs.length := by
  simp [listShift]

theorem listShift_getElem? (k : ℕ) (xs : List ℚ) (i : ℕ) (hi : i < xs.length) :
    (listShift k xs)[i]? = some (if i < k then none else xs[i - k]?) := by
  simp [listShift, List.getElem?_map, List.getElem?_range, hi]

theorem mkPRows_length : ∀ (rs : List Row) (ys : List ℚ) (bs cs : List (Option ℚ)),
    (mkPRows rs ys bs cs).length = min (min rs.length ys.length) (min bs.length cs.length)
  | r :: rs, y :: ys, b :: bs, c :: cs => by
      simp only [mkPRows, List.length_cons, mkPRows_length rs ys bs cs]; omega
  | [], ys, bs, cs => by simp [mkPRows]
  | r :: rs, [], bs, cs => by simp [mkPRows]
  | r :: rs, y :: ys, [], cs => by simp [mkPRows]
  | r :: rs, y :: ys, b :: bs, [] => by simp [mkPRows]

theorem mkPRows_getElem? : ∀ (rs : List Row) (ys : List ℚ) (bs cs : List (Option ℚ)) (i : ℕ)
    (r : Row) (a : ℚ) (b c : Option ℚ),
    rs[i]? = some r → ys[i]? = some a → bs[i]? = some b → cs[i]? = some c →
    (mkPRows rs ys bs cs)[i]? = some
      { start_time := r.start_time, y_original := a, y := r.y, feat := r.feat,
        y_yesterday := b, y_prev := c }
  | r0 :: rs, y0 :: ys, b0 :: bs, c0 :: cs, 0, r, a, b, c, hr, ha, hb, hc => by
      simp only [List.getElem?_cons_zero, Option.some_inj] at hr ha hb hc
      subst hr; subst ha; subst hb; subst hc
      simp [mkPRows]
  | r0 :: rs, y0 :: ys, b0 :: bs, c0 :: cs, n + 1, r, a, b, c, hr, ha, hb, hc => by
      simp only [List.getElem?_cons_succ] at hr ha hb hc
      simpa [mkPRows] using mkPRows_getElem? rs ys bs cs n r a b c hr ha hb hc
  | [], _, _, _, _, _, _, _, _, hr, _, _, _ => by simp at hr
  | _ :: _, [], _, _, _, _, _, _, _, _, ha, _, _ => by simp at ha
  | _ :: _, _ :: _, [], _, _, _, _, _, _, _, _, hb, _ => by simp at hb
  | _ :: _, _ :: _, _ :: _, [], _, _, _, _, _, _, _, _, hc => by simp at hc

theorem mkPRows_map_yoriginal : ∀ (rs : List Row) (ys : List ℚ) (bs cs : List (Option ℚ)),
    ys.length = rs.length → bs.length = rs.length → cs.length = rs.length →
    (mkPRows rs ys bs cs).map PRow.y_original = ys
  | [], [], _, _, _, _, _ => by simp [mkPRows]
  | r :: rs, y :: ys, b :: bs, c :: cs, hy, hb, hc => by
      simp only [mkPRows, List.map_cons, List.cons.injEq]
      refine ⟨by trivial, ?_⟩
      exact mkPRows_map_yoriginal rs ys bs cs (by simpa using hy) (by simpa using hb)
        (by simpa using hc)
  | [], y :: ys, _, _, hy, _, _ => by simp at hy
  | r :: rs, [], _, _, hy, _, _ => by simp at hy
  | r :: rs, y :: ys, [], _, _, hb, _ => by simp at hb
  | r :: rs, y :: ys, b :: bs, [], _, _, hc => by simp at hc

theorem mkPRows_map_start : ∀ (rs : List Row) (ys : List ℚ) (bs cs : List (Option ℚ)),
    ys.length = rs.length → bs.length = rs.length → cs.length = rs.length →
    (mkPRows rs ys bs cs).map PRow.start_time = rs.map Row.start_time
  | [], [], _, _, _, _, _ => by simp [mkPRows]
  | r :: rs, y :: ys, b :: bs, c :: cs, hy, hb, hc => by
      simp only [mkPRows, List.map_cons, List.cons.injEq]
      refine ⟨by trivial, ?_⟩
      exact mkPRows_map_start rs ys bs cs (by simpa using hy) (by simpa using hb)
        (by simpa using hc)
  | [], y :: ys, _, _, hy, _, _ => by simp at hy
  | r :: rs, [], _, _, hy, _, _ => by simp at hy
  | r :: rs, y :: ys, [], _, _, hb, _ => by simp at hb
  | r :: rs, y :: ys, b :: bs, [], _, _, hc => by simp at hc

theorem mkPRows_map_y : ∀ (rs : List Row) (ys : List ℚ) (bs cs : List (Option ℚ)),
    ys.length = rs.length → bs.length = rs.length → cs.length = rs.length →
    (mkPRows rs ys bs cs).map PRow.y = rs.map Row.y
  | [], [], _, _, _, _, _ => by simp [mkPRows]
  | r :: rs, y :: ys, b :: bs, c :: cs, hy, hb, hc => by
      simp only [mkPRows, List.map_cons, List.cons.injEq]
      refine ⟨by trivial, ?_⟩
      exact mkPRows_map_y rs ys bs cs (by simpa using hy) (by simpa using hb)
        (by simpa using hc)
  | [], y :: ys, _, _, hy, _, _ => by simp at hy
  | r :: rs, [], _, _, hy, _, _ => by simp at hy
  | r :: rs, y :: ys, [], _, _, hb, _ => by simp at hb
  | r :: rs, y :: ys, b :: bs, [], _, _, hc => by simp at hc

theorem setYCol_length (t : List Row) (ys : List ℚ) :
    (setYCol t ys).length = min t.length ys.length := by
  simp [setYCol]

theorem setYCol_map_y : ∀ (t : List Row) (ys : List ℚ), ys.length = t.length →
    (setYCol t ys).map Row.y = ys
  | [], [], _ => rfl
  | r :: rs, v :: vs, h => by
      simp only [setYCol, List.zipWith_cons_cons, List.map_cons, List.cons.injEq]
      refine ⟨by trivial, ?_⟩
      exact setYCol_map_y rs vs (by simpa using h)
  | [], v :: vs, h => by simp at h
  | r :: rs, [], h => by simp at h

theorem setYCol_map_start (t : List Row) (ys : List ℚ) :
    (setYCol t ys).map Row.start_time = (t.map Row.start_time).take ys.length := by
  induction t generalizing ys with
  | nil => simp [setYCol]
  | cons r rs ih =>
      cases ys with
      | nil => simp [setYCol]
      | cons v vs =>
          simp only [setYCol, List.zipWith_cons_cons, List.map_cons, List.length_cons,
            List.take_succ_cons, List.cons.injEq]
          exact ⟨by trivial, ih vs⟩

theorem mem_dedupAdj : ∀ (l : List ℕ) (x : ℕ), x ∈ dedupAdj l ↔ x ∈ l
  | [], x => by simp [dedupAdj]
  | [a], x => by simp [dedupAdj]
  | a :: b :: tl, x => by
      by_cases h : a = b
      · subst h
        rw [show dedupAdj (a :: a :: tl) = dedupAdj (a :: tl) by simp [dedupAdj]]
        rw [mem_dedupAdj (a :: tl) x]
        simp only [List.mem_cons]
        tauto
      · rw [show dedupAdj (a :: b :: tl) = a :: dedupAdj (b :: tl) by simp [dedupAdj, h]]
        simp only [List.mem_cons, mem_dedupAdj (b :: tl) x]

theorem pairwise_lt_dedupAdj : ∀ (l : List ℕ), l.Pairwise (· ≤ ·) →
    (dedupAdj l).Pairwise (· < ·)
  | [], _ => by simp [dedupAdj]
  | [a], _ => by simp [dedupAdj]
  | a :: b :: tl, hp => by
      have hp' : (b :: tl).Pairwise (· ≤ ·) := hp.of_cons
      by_cases h : a = b
      · simpa only [dedupAdj, if_pos h] using pairwise_lt_dedupAdj (b :: tl) hp'
      · simp only [dedupAdj, if_neg h]
        refine List.Pairwise.cons ?_ (pairwise_lt_dedupAdj (b :: tl) hp')
        intro x hx
        have hx' : x ∈ b :: tl := (mem_dedupAdj _ _).1 hx
        have hab : a ≤ b := (List.pairwise_cons.1 hp).1 b (by simp)
        have hbx : b ≤ x := by
          rcases List.mem_cons.1 hx' with h1 | h1
          · exact le_of_eq h1.symm
          · exact (List.pairwise_cons.1 hp').1 x h1
        exact lt_of_lt_of_le (lt_of_le_of_ne hab h) hbx

theorem filter_key_nodup {β : Type} : ∀ (l : List (ℕ × β)), (l.map Prod.fst).Nodup →
    ∀ (k : ℕ) (v : β), (k, v) ∈ l → l.filter (fun x => x.1 = k) = [(k, v)]
  | [], _, k, v, he => by simp at he
  | g :: gs, hnd, k, v, he => by
      rw [List.map_cons, List.nodup_cons] at hnd
      rcases List.mem_cons.1 he with rfl | he'
      · have hnot : ∀ x ∈ gs, ¬ (x.1 = k) := by
          intro x hx hxk
          have hmem : x.1 ∈ gs.map Prod.fst := List.mem_map_of_mem Prod.fst hx
          rw [hxk] at hmem
          exact hnd.1 hmem
        have hnil : gs.filter (fun x => decide (x.1 = k)) = [] :=
          List.filter_eq_nil_iff.2 (by simpa using hnot)
        simp [List.filter_cons, hnil]
      · have hne : ¬ (g.1 = k) := by
          intro hgk
          have hmem : k ∈ gs.map Prod.fst := by
            have := List.mem_map_of_mem Prod.fst he'
            simpa using this
          rw [← hgk] at hmem
          exact hnd.1 hmem
        simp only [List.filter_cons]
        rw [if_neg (by simpa using hne)]
        exact filter_key_nodup gs hnd.2 k v he'

theorem filter_lt_take : ∀ (l : List ℕ), l.Pairwise (· < ·) → ∀ (j d : ℕ), l[j]? = some d →
    l.filter (fun e => e < d) = l.take j
  | [], _, j, d, hj => by simp at hj
  | a :: tl, hp, 0, d, hj => by
      simp only [List.getElem?_cons_zero, Option.some_inj] at hj
      subst hj
      simp only [List.take_zero]
      refine List.filter_eq_nil_iff.2 ?_
      intro x hx
      rcases List.mem_cons.1 hx with rfl | h1
      · simp
      · have := (List.pairwise_cons.1 hp).1 x h1
        simp; omega
  | a :: tl, hp, j + 1, d, hj => by
      simp only [List.getElem?_cons_succ] at hj
      have hd : d ∈ tl := List.mem_iff_getElem?.2 ⟨j, hj⟩
      have had : a < d := (List.pairwise_cons.1 hp).1 d hd
      simp only [List.take_succ_cons, List.filter_cons, decide_eq_true_eq, if_pos had]
      rw [filter_lt_take tl (List.pairwise_cons.1 hp).2 j d hj]

theorem getLast?_take_succ : ∀ (l : List ℕ) (j : ℕ), j < l.length →
    (l.take (j + 1)).getLast? = l[j]?
  | [], j, h => by simp at h
  | a :: tl, 0, _ => by simp
  | a :: b :: tl, j + 1, h => by
      have h' : j < (b :: tl).length := by simpa using h
      have ih := getLast?_take_succ (b :: tl) j h'
      simp only [List.take_succ_cons, List.getElem?_cons_succ]
      rw [List.getLast?_cons_cons]
      simpa [List.take_succ_cons] using ih
  | [a], j + 1, h => by simp at h

theorem getLast?_eq_of_max : ∀ (l : List ℕ), l.Pairwise (· < ·) →
    ∀ a, a ∈ l → (∀ x ∈ l, x ≤ a) → l.getLast? = some a
  | [], _, a, ha, _ => by simp at ha
  | [b], _, a, ha, _ => by
      simp only [List.mem_singleton] at ha
      subst ha; rfl
  | b :: c :: tl, hp, a, ha, hmax => by
      rw [List.getLast?_cons_cons]
      refine getLast?_eq_of_max (c :: tl) (List.pairwise_cons.1 hp).2 a ?_ ?_
      · rcases List.mem_cons.1 ha with rfl | h1
        · exfalso
          have hac : a < c := (List.pairwise_cons.1 hp).1 c (by simp)
          have hca : c ≤ a := hmax c (by simp)
          omega
        · exact h1
      · intro x hx
        exact hmax x (List.mem_cons_of_mem _ hx)

theorem flatMap_singleton_eq_map {α β : Type} (l : List α) (f : α → List β) (h : α → β)
    (hf : ∀ x ∈ l, f x = [h x]) : l.flatMap f = l.map h := by
  induction l with
  | nil => rfl
  | cons a tl ih =>
      simp only [List.flatMap_cons, hf a (by simp), List.map_cons, List.singleton_append,
        List.cons.injEq]
      refine ⟨by trivial, ?_⟩
      exact ih (fun x hx => hf x (by simp [hx]))

/- Structure of the sorted distinct date keys and the merged daily mean. -/

theorem getElem?_some_lt {α : Type} {l : List α} {i : ℕ} {a : α} (h : l[i]? = some a) :
    i < l.length := by
  by_contra hh
  rw [List.getElem?_eq_none (by omega)] at h
  cases h

theorem sortedDates_sorted (g : List GRow) : (sortedDates g).Pairwise (· < ·) :=
  pairwise_lt_dedupAdj _ (List.sorted_insertionSort (fun a b => a ≤ b) (g.map dateOf))

theorem mem_sortedDates (g : List GRow) (d : ℕ) : d ∈ sortedDates g ↔ d ∈ g.map dateOf := by
  rw [sortedDates, mem_dedupAdj]
  exact (List.perm_insertionSort (fun a b => a ≤ b) (g.map dateOf)).mem_iff

theorem sortedDates_nodup (g : List GRow) : (sortedDates g).Nodup :=
  List.Pairwise.imp (fun h => ne_of_lt h) (sortedDates_sorted g)

theorem dailyMeanTbl_getElem? (g : List GRow) (j d : ℕ)
    (hj : (sortedDates g)[j]? = some d) :
    (dailyMeanTbl g)[j]? =
      some (d, if j < 1 then none else ((sortedDates g).map (groupMean g))[j - 1]?) := by
  have hlen : j < (sortedDates g).length := getElem?_some_lt hj
  rw [dailyMeanTbl]
  refine List.getElem?_zip_eq_some.2 ⟨hj, ?_⟩
  rw [listShift_getElem? 1 _ j (by simpa using hlen)]

theorem prevMean_eq_of_getElem (g : List GRow) (j d : ℕ)
    (hj : (sortedDates g)[j]? = some d) :
    prevMean g d = (if j < 1 then none else ((sortedDates g).map (groupMean g))[j - 1]?) := by
  have hfil : prevDates g d = (sortedDates g).take j :=
    filter_lt_take _ (sortedDates_sorted g) j d hj
  rw [prevMean, hfil]
  cases j with
  | zero => simp
  | succ n =>
      have hlen : n + 1 < (sortedDates g).length := getElem?_some_lt hj
      rw [getLast?_take_succ _ n (by omega)]
      rw [if_neg (by omega), List.getElem?_map]
      simp

theorem dailyMeanTbl_filter (g : List GRow) (d : ℕ) (hd : d ∈ g.map dateOf) :
    (dailyMeanTbl g).filter (fun e => e.1 = d) = [(d, prevMean g d)] := by
  obtain ⟨j, hj⟩ := List.mem_iff_getElem?.1 ((mem_sortedDates g d).2 hd)
  have hmem : (d, prevMean g d) ∈ dailyMeanTbl g := by
    refine List.mem_iff_getElem?.2 ⟨j, ?_⟩
    rw [dailyMeanTbl_getElem? g j d hj, prevMean_eq_of_getElem g j d hj]
  have hkeys : (dailyMeanTbl g).map Prod.fst = sortedDates g := by
    rw [dailyMeanTbl]
    apply List.map_fst_zip
    rw [listShift_length, List.length_map]
  refine filter_key_nodup _ ?_ d (prevMean g d) hmem
  rw [hkeys]
  exact sortedDates_nodup g

theorem add_shifted_daily_mean_eq_map (g : List GRow) :
    add_shifted_daily_mean g = g.map (fun r => mkFRow r (prevMean g (dateOf r))) := by
  rw [add_shifted_daily_mean]
  refine flatMap_singleton_eq_map g _ _ ?_
  intro r hr
  rw [dailyMeanTbl_filter g (dateOf r) (List.mem_map_of_mem dateOf hr)]
  rfl

/- Success analysis of the scaler and of one whole pipeline call. -/

theorem winsorize_ok_length {ys ws : List ℚ} (h : winsorize_one_percent ys = Except.ok ws) :
    ws.length = ys.length := by
  by_cases h0 : ys.length = 0
  · rw [winsorize_one_percent, if_pos h0] at h; cases h
  · rw [winsorize_one_percent, if_neg h0] at h
    injection h with h1
    rw [← h1]; simp

theorem getParams_ok {s : LoaderState} {p : ScalerParams} (h : getParams s = Except.ok p) :
    s.scalerParams = some p := by
  cases hsp : s.scalerParams with
  | none => simp [getParams, hsp] at h
  | some q =>
      simp only [getParams, hsp, Except.ok.injEq] at h
      rw [h]

theorem scale_data_ok {s : LoaderState} {rows : List Row} {s' : LoaderState} {out : List Row}
    (h : scale_data s rows = Except.ok (s', out)) :
    ∃ p, s'.scalerParams = some p
      ∧ s'.scaler_is_trained = true
      ∧ (s.scaler_is_trained = true → s' = s)
      ∧ (s.scaler_is_trained = false → fitScaler rows = Except.ok p)
      ∧ out = rows.map (transformRow p) := by
  cases htr : trainIfNeeded s rows with
  | error e =>
      simp only [scale_data, htr] at h
      exact Except.noConfusion h
  | ok s1 =>
      cases hgp : getParams s1 with
      | error e =>
          simp only [scale_data, htr, hgp] at h
          exact Except.noConfusion h
      | ok p =>
          simp only [scale_data, htr, hgp, Except.ok.injEq, Prod.mk.injEq] at h
          obtain ⟨hs1, hout⟩ := h
          subst hs1
          subst hout
          have hparams := getParams_ok hgp
          cases hb : s.scaler_is_trained with
          | true =>
              have hs : s1 = s := by
                rw [trainIfNeeded, if_pos hb] at htr
                exact (Except.ok.inj htr).symm
              subst hs
              refine ⟨p, hparams, hb, fun _ => rfl, fun hf => ?_, rfl⟩
              exact absurd hf (by simp)
          | false =>
              rw [trainIfNeeded, if_neg (by simp [hb])] at htr
              cases hf : fitScaler rows with
              | error e => rw [hf] at htr; cases htr
              | ok q =>
                  rw [hf] at htr
                  have hs1q : s1 = { scalerParams := some q, scaler_is_trained := true } :=
                    (Except.ok.inj htr).symm
                  subst hs1q
                  have hqp : q = p := by simpa using hparams
                  subst hqp
                  refine ⟨q, hparams, rfl, fun ht => ?_, fun _ => rfl, rfl⟩
                  exact absurd ht (by simp [hb])

theorem runPipeline_ok {s : LoaderState} {t : List Row} {s' : LoaderState} {out : List FRow}
    (hp : runPipeline s t = Except.ok (s', out)) :
    ∃ ws p, winsorize_one_percent (t.map Row.y) = Except.ok ws
      ∧ ws.length = t.length
      ∧ s'.scalerParams = some p
      ∧ s'.scaler_is_trained = true
      ∧ (s.scaler_is_trained = true → s' = s)
      ∧ (s.scaler_is_trained = false → fitScaler (setYCol t ws) = Except.ok p)
      ∧ out = pipeSpec t ws p := by
  cases hw : winsorize_one_percent (t.map Row.y) with
  | error e =>
      simp only [runPipeline, apply_preprocessing, hw] at hp
      exact Except.noConfusion hp
  | ok ws =>
      cases hsd : scale_data s (setYCol t ws) with
      | error e =>
          simp only [runPipeline, apply_preprocessing, hw, hsd] at hp
          exact Except.noConfusion hp
      | ok pr =>
          obtain ⟨s1, rowsS⟩ := pr
          simp only [runPipeline, apply_preprocessing, hw, hsd, Except.ok.injEq,
            Prod.mk.injEq] at hp
          obtain ⟨hs1, hout⟩ := hp
          subst hs1
          obtain ⟨p, hparams, hflag, htr, hfit, hrows⟩ := scale_data_ok hsd
          refine ⟨ws, p, rfl, ?_, hparams, hflag, htr, hfit, ?_⟩
          · have := winsorize_ok_length hw
            simpa using this
          · rw [← hout, hrows]
            rfl

/- Column-level facts about one successful call's output. -/

theorem scaledRows_length (t : List Row) (ws : List ℚ) (p : ScalerParams)
    (hlen : ws.length = t.length) : (scaledRows t ws p).length = t.length := by
  simp [scaledRows, setYCol, hlen]

theorem scaledRows_map_start (t : List Row) (ws : List ℚ) (p : ScalerParams)
    (hlen : ws.length = t.length) :
    (scaledRows t ws p).map Row.start_time = t.map Row.start_time := by
  rw [scaledRows, List.map_map]
  have h1 : Row.start_time ∘ transformRow p = Row.start_time := rfl
  rw [h1, setYCol_map_start, hlen]
  exact List.take_of_length_le (by simp)

theorem scaledRows_map_y (t : List Row) (ws : List ℚ) (p : ScalerParams)
    (hlen : ws.length = t.length) :
    (scaledRows t ws p).map Row.y = ws.map (fun v => mmScale p.yMin p.yMax v) := by
  rw [scaledRows, List.map_map]
  have h1 : Row.y ∘ transformRow p = (fun v => mmScale p.yMin p.yMax v) ∘ Row.y := rfl
  rw [h1, ← List.map_map, setYCol_map_y t ws hlen]

theorem gRows_len_y (t : List Row) (ws : List ℚ) (p : ScalerParams)
    (hlen : ws.length = t.length) : (t.map Row.y).length = (scaledRows t ws p).length := by
  simp [scaledRows_length t ws p hlen]

theorem gRows_len_shift (t : List Row) (ws : List ℚ) (p : ScalerParams) (k : ℕ)
    (hlen : ws.length = t.length) :
    (listShift k ((scaledRows t ws p).map Row.y)).length = (scaledRows t ws p).length := by
  simp [listShift_length]

theorem gRows_length (t : List Row) (ws : List ℚ) (p : ScalerParams)
    (hlen : ws.length = t.length) : (gRows t ws p).length = t.length := by
  rw [gRows, List.length_map, mkPRows_length]
  simp [scaledRows_length t ws p hlen, listShift_length]

theorem gRows_map_start (t : List Row) (ws : List ℚ) (p : ScalerParams)
    (hlen : ws.length = t.length) :
    (gRows t ws p).map GRow.start_time = t.map Row.start_time := by
  rw [gRows, List.map_map]
  have h1 : GRow.start_time ∘ addCalendar = PRow.start_time := rfl
  rw [h1, mkPRows_map_start _ _ _ _ (gRows_len_y t ws p hlen)
    (gRows_len_shift t ws p 288 hlen) (gRows_len_shift t ws p 1 hlen),
    scaledRows_map_start t ws p hlen]

theorem gRows_map_yoriginal (t : List Row) (ws : List ℚ) (p : ScalerParams)
    (hlen : ws.length = t.length) :
    (gRows t ws p).map GRow.y_original = t.map Row.y := by
  rw [gRows, List.map_map]
  have h1 : GRow.y_original ∘ addCalendar = PRow.y_original := rfl
  rw [h1, mkPRows_map_yoriginal _ _ _ _ (gRows_len_y t ws p hlen)
    (gRows_len_shift t ws p 288 hlen) (gRows_len_shift t ws p 1 hlen)]

theorem gRows_map_y (t : List Row) (ws : List ℚ) (p : ScalerParams)
    (hlen : ws.length = t.length) :
    (gRows t ws p).map GRow.y = ws.map (fun v => mmScale p.yMin p.yMax v) := by
  rw [gRows, List.map_map]
  have h1 : GRow.y ∘ addCalendar = PRow.y := rfl
  rw [h1, mkPRows_map_y _ _ _ _ (gRows_len_y t ws p hlen)
    (gRows_len_shift t ws p 288 hlen) (gRows_len_shift t ws p 1 hlen),
    scaledRows_map_y t ws p hlen]

theorem gRows_map_dateOf (t : List Row) (ws : List ℚ) (p : ScalerParams)
    (hlen : ws.length = t.length) :
    (gRows t ws p).map dateOf = t.map (fun r => r.start_time.date) := by
  rw [gRows, List.map_map]
  have h1 : dateOf ∘ addCalendar = (fun st : Timestamp => st.date) ∘ PRow.start_time := rfl
  rw [h1, ← List.map_map, mkPRows_map_start _ _ _ _ (gRows_len_y t ws p hlen)
    (gRows_len_shift t ws p 288 hlen) (gRows_len_shift t ws p 1 hlen),
    scaledRows_map_start t ws p hlen, List.map_map]
  rfl

theorem pipeSpec_eq_map (t : List Row) (ws : List ℚ) (p : ScalerParams) :
    pipeSpec t ws p = (gRows t ws p).map
      (fun r => mkFRow r (prevMean (gRows t ws p) (dateOf r))) := by
  rw [show pipeSpec t ws p = add_shifted_daily_mean (gRows t ws p) from rfl]
  exact add_shifted_daily_mean_eq_map _

theorem pipeSpec_length (t : List Row) (ws : List ℚ) (p : ScalerParams)
    (hlen : ws.length = t.length) : (pipeSpec t ws p).length = t.length := by
  rw [pipeSpec_eq_map, List.length_map, gRows_length t ws p hlen]

theorem pipeSpec_map_start (t : List Row) (ws : List ℚ) (p : ScalerParams)
    (hlen : ws.length = t.length) :
    (pipeSpec t ws p).map FRow.start_time = t.map Row.start_time := by
  rw [pipeSpec_eq_map, List.map_map]
  have h1 : FRow.start_time ∘ (fun r => mkFRow r (prevMean (gRows t ws p) (dateOf r)))
      = GRow.start_time := rfl
  rw [h1, gRows_map_start t ws p hlen]

theorem pipeSpec_map_yoriginal (t : List Row) (ws : List ℚ) (p : ScalerParams)
    (hlen : ws.length = t.length) :
    (pipeSpec t ws p).map FRow.y_original = t.map Row.y := by
  rw [pipeSpec_eq_map, List.map_map]
  have h1 : FRow.y_original ∘ (fun r => mkFRow r (prevMean (gRows t ws p) (dateOf r)))
      = GRow.y_original := rfl
  rw [h1, gRows_map_yoriginal t ws p hlen]

theorem pipeSpec_map_y (t : List Row) (ws : List ℚ) (p : ScalerParams)
    (hlen : ws.length = t.length) :
    (pipeSpec t ws p).map FRow.y = ws.map (fun v => mmScale p.yMin p.yMax v) := by
  rw [pipeSpec_eq_map, List.map_map]
  have h1 : FRow.y ∘ (fun r => mkFRow r (prevMean (gRows t ws p) (dateOf r)))
      = GRow.y := rfl
  rw [h1, gRows_map_y t ws p hlen]

theorem pipeSpec_filter_y (t : List Row) (ws : List ℚ) (p : ScalerParams) (d : ℕ) :
    ((pipeSpec t ws p).filter (fun x => x.date = d)).map FRow.y
      = ((gRows t ws p).filter (fun r => dateOf r = d)).map GRow.y := by
  rw [pipeSpec_eq_map, List.filter_map, List.map_map]
  rfl

theorem pipeSpec_proj {t : List Row} {ws : List ℚ} {p : ScalerParams}
    (hlen : ws.length = t.length) {i : ℕ} {r : FRow}
    (hi : (pipeSpec t ws p)[i]? = some r) :
    ∃ r0 : Row, (scaledRows t ws p)[i]? = some r0
      ∧ r.y = r0.y
      ∧ r.y_prev = (if i < 1 then none else ((scaledRows t ws p).map Row.y)[i - 1]?)
      ∧ r.y_yesterday = (if i < 288 then none else ((scaledRows t ws p).map Row.y)[i - 288]?)
      ∧ r.date = r0.start_time.date
      ∧ r.daily_mean = prevMean (gRows t ws p) r0.start_time.date := by
  rw [pipeSpec_eq_map] at hi
  have hilen : i < t.length := by
    have h1 := getElem?_some_lt hi
    rw [List.length_map, gRows_length t ws p hlen] at h1
    exact h1
  have hisc : i < (scaledRows t ws p).length := by
    rw [scaledRows_length t ws p hlen]; exact hilen
  obtain ⟨r0, hr0⟩ : ∃ r0, (scaledRows t ws p)[i]? = some r0 :=
    ⟨_, List.getElem?_eq_getElem hisc⟩
  obtain ⟨a, ha⟩ : ∃ a, (t.map Row.y)[i]? = some a :=
    ⟨_, List.getElem?_eq_getElem (by simpa using hilen)⟩
  have hyy := listShift_getElem? 288 ((scaledRows t ws p).map Row.y) i (by simpa using hisc)
  have hyp := listShift_getElem? 1 ((scaledRows t ws p).map Row.y) i (by simpa using hisc)
  have hpre := mkPRows_getElem? (scaledRows t ws p) (t.map Row.y)
    (listShift 288 ((scaledRows t ws p).map Row.y))
    (listShift 1 ((scaledRows t ws p).map Row.y)) i r0 a _ _ hr0 ha hyy hyp
  rw [List.getElem?_map, gRows, List.getElem?_map, hpre, Option.map_some', Option.map_some',
    Option.some_inj] at hi
  subst hi
  exact ⟨r0, hr0, rfl, rfl, rfl, rfl, rfl⟩

/- C3: lag correctness of y_prev (shift 1) and y_yesterday (shift 288). -/

/-- C3.  For every processed table, `y_prev[i] = y[i-1]` in the scaled domain
    for every in-range `i ≥ 1` with `y_prev[0]` null, and
    `y_yesterday[i] = y[i-288]` for every in-range `i ≥ 288` with
    `y_yesterday[i]` null for `i < 288`. -/
theorem c3_lag_correctness (s : LoaderState) (t : List Row) (s' : LoaderState)
    (out : List FRow) (hp : runPipeline s t = Except.ok (s', out)) :
    (∀ r, out[0]? = some r → r.y_prev = none)
    ∧ (∀ i r rp, 1 ≤ i → out[i]? = some r → out[i - 1]? = some rp → r.y_prev = some rp.y)
    ∧ (∀ i r, i < 288 → out[i]? = some r → r.y_yesterday = none)
    ∧ (∀ i r rp, 288 ≤ i → out[i]? = some r → out[i - 288]? = some rp →
        r.y_yesterday = some rp.y) := by
  obtain ⟨ws, p, hw, hlen, hparams, hflag, htr, hfit, hout⟩ := runPipeline_ok hp
  subst hout
  refine ⟨?_, ?_, ?_, ?_⟩
  · intro r hr
    obtain ⟨r0, _, _, hyp, _, _, _⟩ := pipeSpec_proj hlen hr
    rw [hyp, if_pos (by omega)]
  · intro i r rp h1 hr hrp
    obtain ⟨r0, _, _, hyp, _, _, _⟩ := pipeSpec_proj hlen hr
    obtain ⟨rp0, hrp0, hrpy, _, _, _, _⟩ := pipeSpec_proj hlen hrp
    rw [hyp, if_neg (by omega), List.getElem?_map, hrp0, Option.map_some', hrpy]
  · intro i r hi hr
    obtain ⟨r0, _, _, _, hyy, _, _⟩ := pipeSpec_proj hlen hr
    rw [hyy, if_pos hi]
  · intro i r rp h288 hr hrp
    obtain ⟨r0, _, _, _, hyy, _, _⟩ := pipeSpec_proj hlen hr
    obtain ⟨rp0, hrp0, hrpy, _, _, _, _⟩ := pipeSpec_proj hlen hrp
    rw [hyy, if_neg (by omega), List.getElem?_map, hrp0, Option.map_some', hrpy]

/- C4: row count and row order are preserved end to end, including the merge. -/

/-- C4.  Every successful call returns exactly one output row per input row,
    in the input's order (the `start_time` and raw-`y` columns are carried
    through unchanged, row by row); and the final per-date merge itself
    preserves the row count and the row order of its input unconditionally. -/
theorem c4_row_preservation (s : LoaderState) (t : List Row) (s' : LoaderState)
    (out : List FRow) (hp : runPipeline s t = Except.ok (s', out)) :
    out.length = t.length
    ∧ out.map FRow.start_time = t.map Row.start_time
    ∧ out.map FRow.y_original = t.map Row.y
    ∧ (∀ g : List GRow, (add_shifted_daily_mean g).length = g.length
        ∧ (add_shifted_daily_mean g).map FRow.start_time = g.map GRow.start_time) := by
  obtain ⟨ws, p, hw, hlen, hparams, hflag, htr, hfit, hout⟩ := runPipeline_ok hp
  subst hout
  refine ⟨pipeSpec_length t ws p hlen, pipeSpec_map_start t ws p hlen,
    pipeSpec_map_yoriginal t ws p hlen, ?_⟩
  intro g
  rw [add_shifted_daily_mean_eq_map, List.length_map, List.map_map]
  exact ⟨rfl, rfl⟩

/- C6: the y_original column is the untouched raw y column. -/

/-- C6.  For every successful call, the `y_original` column of the fully
    processed output equals, row by row, the raw `y` column of the input
    before clipping or scaling. -/
theorem c6_y_original_snapshot (s : LoaderState) (t : List Row) (s' : LoaderState)
    (out : List FRow) (hp : runPipeline s t = Except.ok (s', out)) :
    out.map FRow.y_original = t.map Row.y := by
  obtain ⟨ws, p, hw, hlen, hparams, hflag, htr, hfit, hout⟩ := runPipeline_ok hp
  subst hout
  exact pipeSpec_map_yoriginal t ws p hlen

/- Helpers for evaluating the pipeline at the concrete witness tables. -/

theorem exceptOk_exists {s : LoaderState} {t : List Row}
    (h : exceptOk (runPipeline s t) = true) :
    ∃ s' out, runPipeline s t = Except.ok (s', out) := by
  cases hr : runPipeline s t with
  | ok pr =>
      obtain ⟨s', out⟩ := pr
      exact ⟨s', out, rfl⟩
  | error e => rw [hr] at h; simp [exceptOk] at h

theorem pipeOut_eq {s : LoaderState} {t : List Row} {s' : LoaderState} {out : List FRow}
    (h : runPipeline s t = Except.ok (s', out)) : pipeOut s t = out := by
  rw [pipeOut, h]; rfl

theorem pipeState_eq {s : LoaderState} {t : List Row} {s' : LoaderState} {out : List FRow}
    (h : runPipeline s t = Except.ok (s', out)) : pipeState s t = s' := by
  rw [pipeState, h]; rfl

theorem runPipeline_length {s : LoaderState} {t : List Row} {s' : LoaderState}
    {out : List FRow} (hp : runPipeline s t = Except.ok (s', out)) :
    out.length = t.length := by
  obtain ⟨ws, p, _, hlen, _, _, _, _, hout⟩ := runPipeline_ok hp
  subst hout
  exact pipeSpec_length t ws p hlen

set_option maxRecDepth 40000 in
/-- C3 witness: on a 290-row table, the first output row has a null `y_prev`,
    row 1's `y_prev` is row 0's scaled `y`, row 287's `y_yesterday` is null,
    and row 288's `y_yesterday` is row 0's scaled `y`. -/
theorem c3_lag_correctness_witness :
    ((pipeOut freshLoader tblLong)[0]?).map FRow.y_prev = some none
    ∧ ((pipeOut freshLoader tblLong)[1]?).map FRow.y_prev
        = ((pipeOut freshLoader tblLong)[0]?).map (fun r => some r.y)
    ∧ ((pipeOut freshLoader tblLong)[287]?).map FRow.y_yesterday = some none
    ∧ ((pipeOut freshLoader tblLong)[288]?).map FRow.y_yesterday
        = ((pipeOut freshLoader tblLong)[0]?).map (fun r => some r.y) := by
  obtain ⟨s', out, hres⟩ := exceptOk_exists (s := freshLoader) (t := tblLong) (by rfl)
  have hlen : out.length = 290 := by
    rw [runPipeline_length hres]; simp [tblLong]
  obtain ⟨h0, h1, h287, h288⟩ := c3_lag_correctness freshLoader tblLong s' out hres
  obtain ⟨r0, hr0⟩ : ∃ r, out[0]? = some r := ⟨_, List.getElem?_eq_getElem (by omega)⟩
  obtain ⟨r1, hr1⟩ : ∃ r, out[1]? = some r := ⟨_, List.getElem?_eq_getElem (by omega)⟩
  obtain ⟨r287, hr287⟩ : ∃ r, out[287]? = some r := ⟨_, List.getElem?_eq_getElem (by omega)⟩
  obtain ⟨r288, hr288⟩ : ∃ r, out[288]? = some r := ⟨_, List.getElem?_eq_getElem (by omega)⟩
  rw [pipeOut_eq hres]
  refine ⟨?_, ?_, ?_, ?_⟩
  · rw [hr0, Option.map_some', h0 r0 hr0]
  · rw [hr1, hr0, Option.map_some', Option.map_some', h1 1 r1 r0 (by omega) hr1 hr0]
  · rw [hr287, Option.map_some', h287 287 r287 (by omega) hr287]
  · rw [hr288, hr0, Option.map_some', Option.map_some',
      h288 288 r288 r0 (by omega) hr288 hr0]

/-- C4 witness: a concrete three-row, two-date table keeps its length and its
    `start_time` column through the whole pipeline. -/
theorem c4_row_preservation_witness :
    (pipeOut freshLoader tblTwoDates).map FRow.start_time = tblTwoDates.map Row.start_time
    ∧ (pipeOut freshLoader tblTwoDates).length = tblTwoDates.length := by
  obtain ⟨s', out, hres⟩ := exceptOk_exists (s := freshLoader) (t := tblTwoDates) (by rfl)
  obtain ⟨hl, hst, _, _⟩ := c4_row_preservation freshLoader tblTwoDates s' out hres
  rw [pipeOut_eq hres]
  exact ⟨hst, hl⟩

/-- C6 witness: a concrete table's `y_original` output column equals its raw
    `y` input column. -/
theorem c6_y_original_snapshot_witness :
    (pipeOut freshLoader tblSnap).map FRow.y_original = tblSnap.map Row.y := by
  obtain ⟨s', out, hres⟩ := exceptOk_exists (s := freshLoader) (t := tblSnap) (by rfl)
  rw [pipeOut_eq hres]
  exact c6_y_original_snapshot freshLoader tblSnap s' out hres

/- Characterization of the merged previous-day mean. -/

theorem gRows_dates (t : List Row) (ws : List ℚ) (p : ScalerParams)
    (hlen : ws.length = t.length) (e : ℕ) :
    e ∈ (gRows t ws p).map dateOf ↔ e ∈ t.map (fun r => r.start_time.date) := by
  rw [gRows_map_dateOf t ws p hlen]

theorem prevMean_none_of_no_lt (t : List Row) (ws : List ℚ) (p : ScalerParams)
    (hlen : ws.length = t.length) (d : ℕ)
    (hno : ∀ e ∈ t.map (fun r => r.start_time.date), ¬ e < d) :
    prevMean (gRows t ws p) d = none := by
  have hnil : prevDates (gRows t ws p) d = [] := by
    refine List.filter_eq_nil_iff.2 ?_
    intro e he
    have hmem : e ∈ t.map (fun r => r.start_time.date) :=
      (gRows_dates t ws p hlen e).1 ((mem_sortedDates _ e).1 he)
    simpa using hno e hmem
  rw [prevMean, hnil]
  rfl

theorem prevMean_some_of_max (t : List Row) (ws : List ℚ) (p : ScalerParams)
    (hlen : ws.length = t.length) (d dprev : ℕ)
    (hd : dprev ∈ t.map (fun r => r.start_time.date)) (hlt : dprev < d)
    (hmax : ∀ e ∈ t.map (fun r => r.start_time.date), e < d → e ≤ dprev) :
    prevMean (gRows t ws p) d = some (groupMean (gRows t ws p) dprev) := by
  have hsorted : (prevDates (gRows t ws p) d).Pairwise (· < ·) :=
    List.Pairwise.filter _ (sortedDates_sorted _)
  have hmem : dprev ∈ prevDates (gRows t ws p) d := by
    rw [prevDates, List.mem_filter]
    exact ⟨(mem_sortedDates _ dprev).2 ((gRows_dates t ws p hlen dprev).2 hd),
      by simpa using hlt⟩
  have hub : ∀ x ∈ prevDates (gRows t ws p) d, x ≤ dprev := by
    intro x hx
    rw [prevDates, List.mem_filter] at hx
    exact hmax x ((gRows_dates t ws p hlen x).1 ((mem_sortedDates _ x).1 hx.1))
      (by simpa using hx.2)
  rw [prevMean, getLast?_eq_of_max _ hsorted dprev hmem hub]
  rfl

/- C10: the daily mean joined onto a row comes from the previous date present
   in the table, not the previous calendar day. -/

/-- C10.  For every successful call and every output row: when no table date
    is smaller than the row's date, `daily_mean` is null; and when `dprev` is
    the largest table date below the row's date (even across calendar gaps),
    `daily_mean` is the mean of scaled `y` over the rows of date `dprev`. -/
theorem c10_previous_present_date (s : LoaderState) (t : List Row) (s' : LoaderState)
    (out : List FRow) (hp : runPipeline s t = Except.ok (s', out)) :
    ∀ fr ∈ out,
      ((∀ e ∈ t.map (fun r => r.start_time.date), ¬ e < fr.date) → fr.daily_mean = none)
      ∧ (∀ dprev, dprev ∈ t.map (fun r => r.start_time.date) → dprev < fr.date →
          (∀ e ∈ t.map (fun r => r.start_time.date), e < fr.date → e ≤ dprev) →
          fr.daily_mean = some
            (listMean ((out.filter (fun x => x.date = dprev)).map FRow.y))) := by
  obtain ⟨ws, p, hw, hlen, hparams, hflag, htr, hfit, hout⟩ := runPipeline_ok hp
  subst hout
  intro fr hfr
  rw [pipeSpec_eq_map] at hfr
  obtain ⟨rg, hrg, rfl⟩ := List.mem_map.1 hfr
  constructor
  · intro hno
    exact prevMean_none_of_no_lt t ws p hlen (dateOf rg) hno
  · intro dprev hd hlt hmax
    have hpm := prevMean_some_of_max t ws p hlen (dateOf rg) dprev hd hlt hmax
    have hbridge : listMean (((pipeSpec t ws p).filter
        (fun x => x.date = dprev)).map FRow.y) = groupMean (gRows t ws p) dprev := by
      rw [pipeSpec_filter_y, groupMean]
    rw [show (mkFRow rg (prevMean (gRows t ws p) (dateOf rg))).daily_mean
      = prevMean (gRows t ws p) (dateOf rg) from rfl, hpm, hbridge]

/- C2: with exactly two dates, date-2 rows carry the date-1 mean and date-1
   rows carry null. -/

/-- C2.  For every successful call on a table spanning exactly the two dates
    `d1 < d2`, every output row of date `d2` has `daily_mean` equal to the
    mean of the scaled `y` values over the rows of date `d1`, and every
    output row of date `d1` has a null `daily_mean`. -/
theorem c2_previous_day_mean (s : LoaderState) (t : List Row) (s' : LoaderState)
    (out : List FRow) (d1 d2 : ℕ) (hp : runPipeline s t = Except.ok (s', out))
    (hlt : d1 < d2)
    (hsub : ∀ r ∈ t, r.start_time.date = d1 ∨ r.start_time.date = d2)
    (hm1 : d1 ∈ t.map (fun r => r.start_time.date))
    (hm2 : d2 ∈ t.map (fun r => r.start_time.date)) :
    ∀ fr ∈ out,
      (fr.date = d1 → fr.daily_mean = none)
      ∧ (fr.date = d2 → fr.daily_mean = some
          (listMean ((out.filter (fun x => x.date = d1)).map FRow.y))) := by
  obtain ⟨ws, p, hw, hlen, hparams, hflag, htr, hfit, hout⟩ := runPipeline_ok hp
  subst hout
  intro fr hfr
  rw [pipeSpec_eq_map] at hfr
  obtain ⟨rg, hrg, rfl⟩ := List.mem_map.1 hfr
  have hdate : (mkFRow rg (prevMean (gRows t ws p) (dateOf rg))).date = dateOf rg := rfl
  have hdm : (mkFRow rg (prevMean (gRows t ws p) (dateOf rg))).daily_mean
      = prevMean (gRows t ws p) (dateOf rg) := rfl
  constructor
  · intro hfd
    rw [hdate] at hfd
    rw [hdm, hfd]
    refine prevMean_none_of_no_lt t ws p hlen d1 ?_
    intro e he
    obtain ⟨r, hr, rfl⟩ := List.mem_map.1 he
    rcases hsub r hr with h | h <;> omega
  · intro hfd
    rw [hdate] at hfd
    rw [hdm, hfd]
    have hpm := prevMean_some_of_max t ws p hlen d2 d1 hm1 hlt ?_
    · have hbridge : listMean (((pipeSpec t ws p).filter
          (fun x => x.date = d1)).map FRow.y) = groupMean (gRows t ws p) d1 := by
        rw [pipeSpec_filter_y, groupMean]
      rw [hpm, hbridge]
    · intro e he hlt2
      obtain ⟨r, hr, rfl⟩ := List.mem_map.1 he
      rcases hsub r hr with h | h <;> omega

set_option maxRecDepth 20000 in
/-- C2 witness: on the concrete two-date table, date-0 rows get a null
    `daily_mean` and the date-1 row gets exactly the mean of the scaled `y`
    values over the date-0 rows. -/
theorem c2_previous_day_mean_witness :
    ((pipeOut freshLoader tblTwoDates)[0]?).map FRow.daily_mean = some none
    ∧ ((pipeOut freshLoader tblTwoDates)[2]?).map FRow.daily_mean
        = some (some (listMean (((pipeOut freshLoader tblTwoDates).filter
            (fun x => x.date = 0)).map FRow.y))) := by
  obtain ⟨s', out, hres⟩ := exceptOk_exists (s := freshLoader) (t := tblTwoDates) (by rfl)
  have hout := pipeOut_eq hres
  have hlen : out.length = 3 := by rw [runPipeline_length hres]; rfl
  obtain ⟨r0, hr0⟩ : ∃ r, out[0]? = some r := ⟨_, List.getElem?_eq_getElem (by omega)⟩
  obtain ⟨r2, hr2⟩ : ∃ r, out[2]? = some r := ⟨_, List.getElem?_eq_getElem (by omega)⟩
  have hc := c2_previous_day_mean freshLoader tblTwoDates s' out 0 1 hres (by omega)
    (by decide) (by decide) (by decide)
  have h0 := hc r0 (List.mem_iff_getElem?.2 ⟨0, hr0⟩)
  have h2 := hc r2 (List.mem_iff_getElem?.2 ⟨2, hr2⟩)
  have hd0 : r0.date = 0 := by
    have hq : ((pipeOut freshLoader tblTwoDates)[0]?).map FRow.date = some 0 := by decide
    rw [hout, hr0, Option.map_some'] at hq
    exact Option.some_inj.1 hq
  have hd2 : r2.date = 1 := by
    have hq : ((pipeOut freshLoader tblTwoDates)[2]?).map FRow.date = some 1 := by decide
    rw [hout, hr2, Option.map_some'] at hq
    exact Option.some_inj.1 hq
  constructor
  · rw [hout, hr0, Option.map_some', h0.1 hd0]
  · rw [hout, hr2, Option.map_some', h2.2 hd2]

set_option maxRecDepth 20000 in
/-- C10 witness: on the concrete gap table (dates 0, 0, 2 — date 1 absent),
    the date-2 row receives exactly the mean of scaled `y` over the rows of
    the most recent present date 0, and the date-0 rows receive null. -/
theorem c10_previous_present_date_witness :
    ((pipeOut freshLoader tblGap)[0]?).map FRow.daily_mean = some none
    ∧ ((pipeOut freshLoader tblGap)[2]?).map FRow.daily_mean
        = some (some (listMean (((pipeOut freshLoader tblGap).filter
            (fun x => x.date = 0)).map FRow.y))) := by
  obtain ⟨s', out, hres⟩ := exceptOk_exists (s := freshLoader) (t := tblGap) (by rfl)
  have hout := pipeOut_eq hres
  have hlen : out.length = 3 := by rw [runPipeline_length hres]; rfl
  obtain ⟨r0, hr0⟩ : ∃ r, out[0]? = some r := ⟨_, List.getElem?_eq_getElem (by omega)⟩
  obtain ⟨r2, hr2⟩ : ∃ r, out[2]? = some r := ⟨_, List.getElem?_eq_getElem (by omega)⟩
  have hc := c10_previous_present_date freshLoader tblGap s' out hres
  have h0 := hc r0 (List.mem_iff_getElem?.2 ⟨0, hr0⟩)
  have h2 := hc r2 (List.mem_iff_getElem?.2 ⟨2, hr2⟩)
  have hd0 : r0.date = 0 := by
    have hq : ((pipeOut freshLoader tblGap)[0]?).map FRow.date = some 0 := by decide
    rw [hout, hr0, Option.map_some'] at hq
    exact Option.some_inj.1 hq
  have hd2 : r2.date = 2 := by
    have hq : ((pipeOut freshLoader tblGap)[2]?).map FRow.date = some 2 := by decide
    rw [hout, hr2, Option.map_some'] at hq
    exact Option.some_inj.1 hq
  constructor
  · rw [hout, hr0, Option.map_some', h0.1 (by simp only [hd0]; decide)]
  · rw [hout, hr2, Option.map_some',
      h2.2 0 (by decide) (by simp only [hd2]; omega) (by simp only [hd2]; decide)]

/- C1: the scaler is fit exactly once, on the first table. -/

theorem mmScale_gt_one (a b x : ℚ) (hab : a < b) (hx : b < x) : 1 < mmScale a b x := by
  have hba : b - a ≠ 0 := sub_ne_zero.2 (ne_of_gt hab)
  rw [mmScale, if_neg hba]
  have hpos : 0 < b - a := sub_pos.2 hab
  have hs : 0 < 2 / (b - a) := div_pos (by norm_num) hpos
  have key : 2 / (b - a) * (b - a) = 2 := div_mul_cancel₀ 2 hba
  have h3 : 0 < (x - b) * (2 / (b - a)) := mul_pos (sub_pos.2 hx) hs
  nlinarith [key, h3]

theorem mmScale_lt_negone (a b x : ℚ) (hab : a < b) (hx : x < a) : mmScale a b x < -1 := by
  have hba : b - a ≠ 0 := sub_ne_zero.2 (ne_of_gt hab)
  rw [mmScale, if_neg hba]
  have hpos : 0 < b - a := sub_pos.2 hab
  have hs : 0 < 2 / (b - a) := div_pos (by norm_num) hpos
  have h3 : (x - a) * (2 / (b - a)) < 0 := mul_neg_of_neg_of_pos (sub_neg.2 hx) hs
  nlinarith [h3]

/-- C1.  The scaler is fit exactly once per pipeline instance, on the first
    table processed: the first call stores exactly the min/max fit on its
    (winsorized) data and sets the trained flag; every later call returns the
    state unchanged; the second call's `y` column is the stored first-call
    affine map applied to the second table's winsorized values; and that map
    sends values beyond the fitted max or min strictly outside [-1, 1] with
    no clamping. -/
theorem c1_scaler_fit_once (t1 t2 : List Row) (s1 s2 : LoaderState) (o1 o2 : List FRow)
    (h1 : runPipeline freshLoader t1 = Except.ok (s1, o1))
    (h2 : runPipeline s1 t2 = Except.ok (s2, o2)) :
    s2 = s1
    ∧ s1.scaler_is_trained = true
    ∧ (∀ t3 s3 o3, runPipeline s1 t3 = Except.ok (s3, o3) → s3 = s1)
    ∧ (∃ ws1 p1, winsorize_one_percent (t1.map Row.y) = Except.ok ws1
        ∧ fitScaler (setYCol t1 ws1) = Except.ok p1
        ∧ s1.scalerParams = some p1
        ∧ (∃ ws2, winsorize_one_percent (t2.map Row.y) = Except.ok ws2
            ∧ o2.map FRow.y = ws2.map (fun v => mmScale p1.yMin p1.yMax v)))
    ∧ (∀ a b x : ℚ, a < b → b < x → 1 < mmScale a b x)
    ∧ (∀ a b x : ℚ, a < b → x < a → mmScale a b x < -1) := by
  obtain ⟨ws1, p1, hw1, hlen1, hpar1, hflag1, _, hfit1, hout1⟩ := runPipeline_ok h1
  obtain ⟨ws2, p2, hw2, hlen2, hpar2, hflag2, htr2, _, hout2⟩ := runPipeline_ok h2
  have hs2 : s2 = s1 := htr2 hflag1
  have hp12 : p2 = p1 := by
    rw [hs2] at hpar2
    rw [hpar2] at hpar1
    exact Option.some_inj.1 hpar1
  refine ⟨hs2, hflag1, ?_, ⟨ws1, p1, hw1, hfit1 rfl, hpar1, ⟨ws2, hw2, ?_⟩⟩,
    mmScale_gt_one, mmScale_lt_negone⟩
  · intro t3 s3 o3 h3
    obtain ⟨_, _, _, _, _, _, htr3, _, _⟩ := runPipeline_ok h3
    exact htr3 hflag1
  · rw [hout2, pipeSpec_map_y t2 ws2 p2 hlen2, hp12]

/-- C1 witness: fitting on tblA, a second call on tblB (whose `y = 3` lies
    outside the fitted range [0, 2]) leaves the stored scaler state
    unchanged, and the fitted affine map sends 3 above 1 and -1 below -1. -/
theorem c1_scaler_fit_once_witness :
    pipeState (pipeState freshLoader tblA) tblB = pipeState freshLoader tblA
    ∧ (pipeState freshLoader tblA).scaler_is_trained = true
    ∧ 1 < mmScale 0 2 3
    ∧ mmScale 0 2 (-1) < -1 := by
  obtain ⟨s1, o1, hres1⟩ := exceptOk_exists (s := freshLoader) (t := tblA) (by rfl)
  have hs1 : pipeState freshLoader tblA = s1 := pipeState_eq hres1
  obtain ⟨s2, o2, hres2⟩ := exceptOk_exists (s := s1) (t := tblB) (by rw [← hs1]; rfl)
  obtain ⟨heq, hflag, _, _, hgt, hlt⟩ :=
    c1_scaler_fit_once tblA tblB s1 s2 o1 o2 hres1 hres2
  refine ⟨?_, ?_, hgt 0 2 3 (by norm_num) (by norm_num),
    hlt 0 2 (-1) (by norm_num) (by norm_num)⟩
  · rw [hs1, pipeState_eq hres2, heq]
  · rw [hs1]; exact hflag

/- C5: winsorized values lie within the percentile bounds of the same call. -/

theorem winsorCut_bound (n : ℕ) (h : n ≠ 0) : 2 * winsorCut n + 1 ≤ n := by
  have hdm := Nat.div_add_mod (n * 5) 1000
  have hml : n * 5 % 1000 < 1000 := Nat.mod_lt _ (by norm_num)
  rw [winsorCut]
  omega

theorem winsorLower_le_winsorUpper (ys : List ℚ) (h : ys.length ≠ 0) :
    winsorLower ys ≤ winsorUpper ys := by
  have hcut := winsorCut_bound ys.length h
  have hslen : (sortedY ys).length = ys.length := by
    rw [sortedY]; exact List.length_insertionSort _ _
  have hsorted : (sortedY ys).Sorted (fun a b => a ≤ b) :=
    List.sorted_insertionSort _ _
  have hi1 : winsorCut ys.length < (sortedY ys).length := by omega
  have hi2 : ys.length - winsorCut ys.length - 1 < (sortedY ys).length := by omega
  have hle : winsorCut ys.length ≤ ys.length - winsorCut ys.length - 1 := by omega
  rw [winsorLower, winsorUpper, List.getD_eq_getElem?_getD, List.getD_eq_getElem?_getD,
    List.getElem?_eq_getElem hi1, List.getElem?_eq_getElem hi2]
  simp only [Option.getD_some]
  rcases eq_or_lt_of_le hle with heq | hlt
  · exact le_of_eq (by congr 1)
  · exact hsorted.rel_get_of_lt hlt

/-- C5.  Every value of the winsorized `y` column lies within the interval
    between the 0.5th- and 99.5th-percentile bounds computed from the same
    call's input column. -/
theorem c5_winsorization_bound (ys ws : List ℚ)
    (h : winsorize_one_percent ys = Except.ok ws) :
    ∀ v ∈ ws, winsorLower ys ≤ v ∧ v ≤ winsorUpper ys := by
  have hne : ys.length ≠ 0 := by
    intro h0
    rw [winsorize_one_percent, if_pos h0] at h
    cases h
  have hlu := winsorLower_le_winsorUpper ys hne
  rw [winsorize_one_percent, if_neg hne] at h
  injection h with h1
  subst h1
  intro v hv
  simp only [List.mem_map] at hv
  obtain ⟨u, ⟨w, hw, rfl⟩, rfl⟩ := hv
  have hstep1 : winsorLower ys ≤ (if w < winsorLower ys then winsorLower ys else w) := by
    by_cases hc : w < winsorLower ys
    · rw [if_pos hc]
    · rw [if_neg hc]; exact le_of_not_lt hc
  constructor
  · by_cases hc : winsorUpper ys < (if w < winsorLower ys then winsorLower ys else w)
    · rw [if_pos hc]; exact hlu
    · rw [if_neg hc]; exact hstep1
  · by_cases hc : winsorUpper ys < (if w < winsorLower ys then winsorLower ys else w)
    · rw [if_pos hc]
    · rw [if_neg hc]; exact le_of_not_lt hc

/-- C5 witness: the concrete column [0, 10, 5] winsorizes to itself and its
    value 5 lies within the percentile bounds computed from the column. -/
theorem c5_winsorization_bound_witness :
    winsorize_one_percent ysW = Except.ok ysW
    ∧ winsorLower ysW ≤ 5 ∧ 5 ≤ winsorUpper ysW := by
  have hok : winsorize_one_percent ysW = Except.ok ysW := rfl
  have hmem : (5 : ℚ) ∈ ysW := by simp [ysW]
  obtain ⟨hl, hu⟩ := c5_winsorization_bound ysW ysW hok 5 hmem
  exact ⟨hok, hl, hu⟩

/- C7: column creation order. -/

/-- C7 counterexample: in the processed frame's creation order,
    `y_yesterday` (appended by add_shifted_daily_value, called first in
    apply_preprocessing) precedes `y_prev` (appended by shift_y, called
    after it) — contradicting the claim that `y_prev` is created before
    `y_yesterday`. -/
theorem c7_creation_order_counterexample :
    processedCols.indexOf "y_yesterday" < processedCols.indexOf "y_prev" := by
  decide

/-- C7 amended: the derived columns are created in the order `y_original`,
    the in-place clipped/scaled columns, then `y_yesterday` (lag-288), then
    `y_prev` (lag-1), then the calendar columns (each cosine before its
    sine), then `date` and `daily_mean`. -/
theorem c7_creation_order_amended :
    processedCols =
      ["start_time", "hydro", "micro", "thermal", "wind", "river", "total",
       "sys_reg", "flow", "y", "y_original", "y_yesterday", "y_prev",
       "hour_of_day", "min_of_day", "cos_minute", "sin_minute",
       "day_of_week", "cos_weekday", "sin_weekday",
       "day_of_year", "cos_yearday", "sin_yearday", "date", "daily_mean"] := rfl

/- C8: zero-row tables. -/

/-- C8 counterexample: with an already-fitted scaler (a transform-only
    call), the pipeline on a zero-row table does not return an empty table:
    the winsorize step fails on the empty `y` column, exactly as it does on
    a fitting call. -/
theorem c8_empty_input_counterexample :
    runPipeline { scalerParams := some paramsA, scaler_is_trained := true } []
      = Except.error PipeError.emptyInput := rfl

/-- C8 amended: a zero-row table is fatal on every call — fitting or
    transform-only — because winsorize raises on the empty column before the
    scaler is consulted; no empty table is ever returned. -/
theorem c8_empty_input_amended (s : LoaderState) :
    runPipeline s [] = Except.error PipeError.emptyInput := rfl

/- C9: cyclical encodings. -/

theorem roundTo_sub_abs (k : ℕ) (x : ℝ) : |roundTo k x - x| ≤ 1 / (2 * 10 ^ k) := by
  have h10 : (0:ℝ) < 10 ^ k := by positivity
  have heq : roundTo k x - x = (((round (x * 10 ^ k) : ℤ) : ℝ) - x * 10 ^ k) / 10 ^ k := by
    rw [roundTo]; field_simp; ring
  have habs : |((round (x * 10 ^ k) : ℤ) : ℝ) - x * 10 ^ k| ≤ 1 / 2 := by
    rw [abs_sub_comm]; exact abs_sub_round (x * 10 ^ k)
  rw [heq, abs_div, abs_of_pos h10]
  calc |((round (x * 10 ^ k) : ℤ) : ℝ) - x * 10 ^ k| / 10 ^ k
      ≤ (1 / 2) / 10 ^ k := div_le_div_of_nonneg_right habs h10.le
    _ = 1 / (2 * 10 ^ k) := by ring

theorem round_sin_sq_bound (k : ℕ) (θ : ℝ) :
    |roundTo k (Real.sin θ) ^ 2 + Real.cos θ ^ 2 - 1|
      ≤ 2 * (1 / (2 * 10 ^ k)) + (1 / (2 * 10 ^ k)) ^ 2 := by
  have habs : |roundTo k (Real.sin θ) - Real.sin θ| ≤ 1 / (2 * 10 ^ k) :=
    roundTo_sub_abs k (Real.sin θ)
  have hsin : |Real.sin θ| ≤ 1 :=
    abs_le.2 ⟨Real.neg_one_le_sin θ, Real.sin_le_one θ⟩
  have hkey : roundTo k (Real.sin θ) ^ 2 + Real.cos θ ^ 2 - 1
      = 2 * (roundTo k (Real.sin θ) - Real.sin θ) * Real.sin θ
        + (roundTo k (Real.sin θ) - Real.sin θ) ^ 2 := by
    linear_combination Real.sin_sq_add_cos_sq θ
  rw [hkey]
  calc |2 * (roundTo k (Real.sin θ) - Real.sin θ) * Real.sin θ
        + (roundTo k (Real.sin θ) - Real.sin θ) ^ 2|
      ≤ |2 * (roundTo k (Real.sin θ) - Real.sin θ) * Real.sin θ|
        + |(roundTo k (Real.sin θ) - Real.sin θ) ^ 2| := abs_add _ _
    _ = 2 * |roundTo k (Real.sin θ) - Real.sin θ| * |Real.sin θ|
        + |roundTo k (Real.sin θ) - Real.sin θ| ^ 2 := by
        rw [abs_mul, abs_mul, abs_two, ← pow_abs]
    _ ≤ 2 * (1 / (2 * 10 ^ k)) * 1 + (1 / (2 * 10 ^ k)) ^ 2 := by
        refine add_le_add ?_ ?_
        · exact mul_le_mul (by linarith) hsin (abs_nonneg _) (by positivity)
        · exact pow_le_pow_left₀ (abs_nonneg _) habs 2
    _ = 2 * (1 / (2 * 10 ^ k)) + (1 / (2 * 10 ^ k)) ^ 2 := by ring

/-- C9 amended: whenever the cyclical encodings are defined — that is, the
    observed maximum of the calendar feature is nonzero, so numpy's division
    does not produce NaN — the rounded sine and full-precision cosine satisfy
    sin² + cos² within 2ε + ε² of 1, where ε is the half-ulp of the stated
    rounding (six decimals for the minute pair, two for the weekday pair),
    and exactly 1 for the full-precision yearday pair. -/
theorem c9_cyclical_amended (m mM d dM yd ydM : ℕ) (sm cm sw cw sy cy : ℝ)
    (h1 : sin_minute_val m mM = some sm) (h2 : cos_minute_val m mM = some cm)
    (h3 : sin_weekday_val d dM = some sw) (h4 : cos_weekday_val d dM = some cw)
    (h5 : sin_yearday_val yd ydM = some sy) (h6 : cos_yearday_val yd ydM = some cy) :
    |sm ^ 2 + cm ^ 2 - 1| ≤ 1 / 1000000 + 1 / 4000000000000
    ∧ |sw ^ 2 + cw ^ 2 - 1| ≤ 1 / 100 + 1 / 40000
    ∧ sy ^ 2 + cy ^ 2 = 1 := by
  refine ⟨?_, ?_, ?_⟩
  · by_cases hM : mM = 0
    · rw [sin_minute_val, if_pos hM] at h1; cases h1
    · rw [sin_minute_val, if_neg hM] at h1
      rw [cos_minute_val, if_neg hM] at h2
      injection h1 with h1
      injection h2 with h2
      subst h1; subst h2
      have hb := round_sin_sq_bound 6 (2 * Real.pi * m / mM)
      have hnum : (2 * (1 / (2 * 10 ^ 6)) + (1 / (2 * 10 ^ 6)) ^ 2 : ℝ)
          = 1 / 1000000 + 1 / 4000000000000 := by norm_num
      rw [← hnum]
      exact hb
  · by_cases hM : dM = 0
    · rw [sin_weekday_val, if_pos hM] at h3; cases h3
    · rw [sin_weekday_val, if_neg hM] at h3
      rw [cos_weekday_val, if_neg hM] at h4
      injection h3 with h3
      injection h4 with h4
      subst h3; subst h4
      have hb := round_sin_sq_bound 2 (2 * Real.pi * d / dM)
      have hnum : (2 * (1 / (2 * 10 ^ 2)) + (1 / (2 * 10 ^ 2)) ^ 2 : ℝ)
          = 1 / 100 + 1 / 40000 := by norm_num
      rw [← hnum]
      exact hb
  · by_cases hM : ydM = 0
    · rw [sin_yearday_val, if_pos hM] at h5; cases h5
    · rw [sin_yearday_val, if_neg hM] at h5
      rw [cos_yearday_val, if_neg hM] at h6
      injection h5 with h5
      injection h6 with h6
      subst h5; subst h6
      exact Real.sin_sq_add_cos_sq (2 * Real.pi * yd / ydM)

/-- C9 counterexample: on a table whose rows all fall on a Monday — for
    instance the spec's own 288-row single-day example — `max(day_of_week)`
    is 0, numpy computes 0/0 = NaN, and the weekday sine and cosine columns
    hold no number at all, so their squares do not sum to approximately 1. -/
theorem c9_cyclical_counterexample :
    sin_weekday_col [0] = [none] ∧ cos_weekday_col [0] = [none] :=
  ⟨rfl, rfl⟩

/-- C9 amended witness: with observed maximum 1 and feature value 0, all six
    encodings are defined and equal sin 0 = 0 (also after rounding) and
    cos 0 = 1, and the bounds hold at these values. -/
theorem c9_cyclical_amended_witness :
    |(0:ℝ) ^ 2 + 1 ^ 2 - 1| ≤ 1 / 1000000 + 1 / 4000000000000
    ∧ |(0:ℝ) ^ 2 + 1 ^ 2 - 1| ≤ 1 / 100 + 1 / 40000
    ∧ (0:ℝ) ^ 2 + 1 ^ 2 = 1 := by
  have hval : (2 * Real.pi * ((0:ℕ):ℝ) / ((1:ℕ):ℝ)) = 0 := by push_cast; ring
  have hround : ∀ k : ℕ, roundTo k 0 = 0 := by
    intro k
    rw [roundTo, zero_mul, round_zero]
    simp
  have h1 : sin_minute_val 0 1 = some 0 := by
    rw [sin_minute_val, if_neg one_ne_zero, hval, Real.sin_zero, hround]
  have h2 : cos_minute_val 0 1 = some 1 := by
    rw [cos_minute_val, if_neg one_ne_zero, hval, Real.cos_zero]
  have h3 : sin_weekday_val 0 1 = some 0 := by
    rw [sin_weekday_val, if_neg one_ne_zero, hval, Real.sin_zero, hround]
  have h4 : cos_weekday_val 0 1 = some 1 := by
    rw [cos_weekday_val, if_neg one_ne_zero, hval, Real.cos_zero]
  have h5 : sin_yearday_val 0 1 = some 0 := by
    rw [sin_yearday_val, if_neg one_ne_zero, hval, Real.sin_zero]
  have h6 : cos_yearday_val 0 1 = some 1 := by
    rw [cos_yearday_val, if_neg one_ne_zero, hval, Real.cos_zero]
  exact c9_cyclical_amended 0 1 0 1 0 1 0 1 0 1 0 1 h1 h2 h3 h4 h5 h6

/-- C8 amended witness: concretely, the fitting call on the empty table
    fails with the winsorize error. -/
theorem c8_empty_input_amended_witness :
    runPipeline freshLoader [] = Except.error PipeError.emptyInput :=
  c8_empty_input_amended freshLoader
